import Mathlib

/-!
Verification of the `pet` repository (dino_loader.py, renderer.py).

The Python sources are shallowly embedded: NumPy uint8 RGBA buffers become
lists of lists of `Pixel` (each channel a natural number), Python/NumPy
floating-point values are modelled as exact fractions (`Frac`, an integer
numerator/denominator pair kept unreduced so every operation is plain integer
arithmetic that the kernel can evaluate), IEEE-754 binary32 (`np.float32`)
arithmetic is modelled exactly by composing exact fraction operations with
`roundF32`, correct rounding to nearest with ties to even (all values arising
in the blending pipeline lie in the normal range of binary32, so neither
subnormals nor overflow need to be modelled), Python `dict`s (which preserve
insertion order) become association lists, and the external image codec (`PIL`)
is an opaque parameter producing images.
-/

set_option maxRecDepth 40000
set_option maxHeartbeats 4000000

namespace Pet

/-! ### Exact fractions standing in for Python floats

A `Frac` with positive denominator represents the rational `num / den`. The
constructions below keep denominators positive. Comparisons are by value
(cross multiplication), mirroring numeric comparison of floats. -/

structure Frac where
  num : ℤ
  den : ℤ
  deriving DecidableEq

/-- Embed an integer. -/
def ofIntF (n : ℤ) : Frac := ⟨n, 1⟩

/-- Exact addition. -/
def addF (x y : Frac) : Frac := ⟨x.num * y.den + y.num * x.den, x.den * y.den⟩

/-- Exact subtraction. -/
def subF (x y : Frac) : Frac := ⟨x.num * y.den - y.num * x.den, x.den * y.den⟩

/-- Exact multiplication. -/
def mulF (x y : Frac) : Frac := ⟨x.num * y.num, x.den * y.den⟩

/-- Exact division, keeping the denominator positive. -/
def divF (x y : Frac) : Frac :=
  if y.num < 0 then ⟨-(x.num * y.den), -(x.den * y.num)⟩
  else ⟨x.num * y.den, x.den * y.num⟩

/-- Value equality test (the `==`/`!=` of Python floats). -/
def beqF (x y : Frac) : Bool := x.num * y.den == y.num * x.den

/-- Truncation toward zero: Python `int(...)`, and the C cast performed by
NumPy `astype` on a float value (denominator assumed positive). -/
def truncF (x : Frac) : ℤ := Int.tdiv x.num x.den

/-! ### Exact model of the float32 rounding used by `renderer.composite_image` -/

/-- Scale the positive fraction `n/d` by powers of two until it lies in
`[2^23, 2^24)`, returning the adjusted pair and the exponent taken out.
Fuel-based structural recursion so the kernel can evaluate it; fuel 600 covers
every magnitude that can reach this function. -/
def f32norm : ℕ → ℤ → ℤ → ℤ → ℤ × ℤ × ℤ
  | 0, n, d, k => (n, d, k)
  | fuel+1, n, d, k =>
    if n < d * 2^23 then f32norm fuel (2*n) d (k-1)
    else if d * 2^24 ≤ n then f32norm fuel n (2*d) (k+1)
    else (n, d, k)

/-- Round `n/d` (with `d > 0`) to the nearest integer, ties to even. -/
def rnEvenFrac (n d : ℤ) : ℤ :=
  let m := Int.fdiv n d
  let r := n - m * d
  if 2*r < d then m
  else if d < 2*r then m + 1
  else if m % 2 = 0 then m else m + 1

/-- Round the positive fraction `n/d` to the binary32 grid (nearest, ties to
even), assuming the value is in the normal range — true of every value that
arises in the compositing pipeline. -/
def roundF32pos (n d : ℤ) : Frac :=
  let t := f32norm 600 n d 0
  let m := rnEvenFrac t.1 t.2.1
  if 0 ≤ t.2.2 then ⟨m * 2^t.2.2.toNat, 1⟩ else ⟨m, 2^(-t.2.2).toNat⟩

/-- Correctly rounded (nearest, ties to even) binary32 value of an exact
fraction with positive denominator. Every IEEE-754 elementary operation
(`+ - * /`) on float32 operands returns the correct rounding of the exact
rational result, so composing the exact `Frac` operations with `roundF32`
models the NumPy float32 pipeline bit-for-bit. -/
def roundF32 (x : Frac) : Frac :=
  if x.num = 0 then ⟨0, 1⟩
  else if x.num < 0 then
    let p := roundF32pos (-x.num) x.den
    ⟨-p.num, p.den⟩
  else roundF32pos x.num x.den

/-- Cast of a nonnegative in-range float value to `uint8`
(`astype(np.uint8)`): truncation toward zero. -/
def toByte (x : Frac) : ℕ := (truncF x).toNat

/-! ### Pixels and canvases -/

/-- One RGBA pixel of a NumPy `uint8` buffer; each channel is a byte 0..255. -/
structure Pixel where
  r : ℕ
  g : ℕ
  b : ℕ
  a : ℕ
  deriving DecidableEq

/-- An RGBA buffer of shape `(height, width, 4)`: a list of rows of pixels. -/
abbrev Rows := List (List Pixel)

/-- Per-pixel source-over blend of `renderer.composite_image` lines 105-122:
`alpha_src = src_a/255` and `alpha_dst = dst_a/255` in float32,
`rgb_out = rgb_src*alpha_src + rgb_dst*(1-alpha_src)` with every intermediate
operation rounded to float32, `alpha_out = alpha_src + alpha_dst*(1-alpha_src)`,
then truncated to `uint8` (`astype`), the alpha after multiplying by 255. -/
def blendPixel (s d : Pixel) : Pixel :=
  let as := roundF32 (divF (ofIntF s.a) (ofIntF 255))
  let ad := roundF32 (divF (ofIntF d.a) (ofIntF 255))
  let om := roundF32 (subF (ofIntF 1) as)
  { r := toByte (roundF32 (addF (roundF32 (mulF (ofIntF s.r) as))
                                (roundF32 (mulF (ofIntF d.r) om))))
    g := toByte (roundF32 (addF (roundF32 (mulF (ofIntF s.g) as))
                                (roundF32 (mulF (ofIntF d.g) om))))
    b := toByte (roundF32 (addF (roundF32 (mulF (ofIntF s.b) as))
                                (roundF32 (mulF (ofIntF d.b) om))))
    a := toByte (roundF32 (mulF (roundF32 (addF as (roundF32 (mulF ad om))))
                                (ofIntF 255))) }

example : roundF32 (ofIntF 1) = ⟨8388608, 8388608⟩ := by decide
example : blendPixel ⟨255, 0, 0, 255⟩ ⟨0, 0, 0, 0⟩ = ⟨255, 0, 0, 255⟩ := by decide

/-! ### Images -/

/-- Embedding of `DinoImage` (dino_loader.py lines 16-35): the decoded RGBA
buffer plus the anchor point. `width`/`height` of the Python object are the
row/column counts of `rgba_data`; the file `path` is not modelled. -/
structure DinoImage where
  rgba_data : Rows
  anchor : Frac × Frac
  deriving DecidableEq

/-- Height of an image buffer (`rgba_data.shape[0]`). -/
def rowsH (rows : Rows) : ℕ := rows.length

/-- Width of an image buffer (`rgba_data.shape[1]`; NumPy buffers are
rectangular, so the first row's length is the width). -/
def rowsW (rows : Rows) : ℕ := (rows.headD []).length

/-- The `DinoImage` constructor's anchor default (dino_loader.py lines 24-28):
the geometric center `(width/2, height/2)` when no anchor is given. -/
def mkDinoImage (rows : Rows) (anchor : Option (Frac × Frac)) : DinoImage :=
  { rgba_data := rows
    anchor := anchor.getD (divF (ofIntF (rowsW rows)) (ofIntF 2),
                           divF (ofIntF (rowsH rows)) (ofIntF 2)) }

/-- Pixel at row `i`, column `j` of a buffer, with a transparent default for
out-of-range indices (in the embedded code every access is in range). -/
def getPixN (rows : Rows) (i j : ℕ) : Pixel := (rows.getD i []).getD j ⟨0, 0, 0, 0⟩

/-- Pixel lookup by integer indices (used for NumPy fancy indexing). -/
def getPixZ (rows : Rows) (i j : ℤ) : Pixel :=
  if 0 ≤ i ∧ 0 ≤ j then getPixN rows i.toNat j.toNat else ⟨0, 0, 0, 0⟩

/-! ### composite_image (renderer.py lines 28-122) -/

/-- Index-aware map, the shape of a NumPy whole-buffer operation: element `j`
of the result is `f (i+j)` applied to element `j` of the input. -/
def mapFrom (f : ℕ → α → β) (i : ℕ) : List α → List β
  | [] => []
  | a :: l => f i a :: mapFrom f (i+1) l

/-- Flip stage of `composite_image` (lines 56-59): `np.fliplr` reverses each
row, `np.flipud` reverses the row order. -/
def flipSrc (src : Rows) (flip_h flip_v : Bool) : Rows :=
  let s1 := if flip_h then src.map List.reverse else src
  if flip_v then s1.reverse else s1

/-- Scale stage of `composite_image` (lines 71-81): when `scale != 1.0`,
nearest-neighbour resampling; output pixel `(i, j)` samples source pixel
`(int(i/scale), int(j/scale))`, with `scaled_w = int(src_w*scale)` and
`scaled_h = int(src_h*scale)`. -/
def scaleSrc (src : Rows) (scale : Frac) : Rows :=
  if beqF scale (ofIntF 1) then src
  else
    let scaledW := (truncF (mulF (ofIntF (rowsW src)) scale)).toNat
    let scaledH := (truncF (mulF (ofIntF (rowsH src)) scale)).toNat
    (List.range scaledH).map fun i =>
      (List.range scaledW).map fun j =>
        getPixZ src (truncF (divF (ofIntF i) scale)) (truncF (divF (ofIntF j) scale))

/-- Destination top-left x coordinate (line 65): `int(x - anchor_x * scale)`. -/
def dstXOf (image : DinoImage) (x scale : Frac) : ℤ :=
  truncF (subF x (mulF image.anchor.1 scale))

/-- Destination top-left y coordinate (line 66): `int(y - anchor_y * scale)`. -/
def dstYOf (image : DinoImage) (y scale : Frac) : ℤ :=
  truncF (subF y (mulF image.anchor.2 scale))

/-- Clip-and-blend stage of `composite_image` (lines 84-122): compute the
overlap of the destination rectangle (top-left `(dx, dy)`, extent the source
shape) with the canvas bounds; on empty overlap return the canvas untouched
(the early `return`), otherwise source-over blend the overlapping region in
place. -/
def compositeClipped (canvas src : Rows) (dx dy : ℤ) : Rows :=
  let sxs : ℤ := max 0 (-dx)
  let sys : ℤ := max 0 (-dy)
  let sxe : ℤ := min (rowsW src) ((rowsW canvas : ℤ) - dx)
  let sye : ℤ := min (rowsH src) ((rowsH canvas : ℤ) - dy)
  let dxs : ℤ := max 0 dx
  let dys : ℤ := max 0 dy
  let dxe : ℤ := dxs + (sxe - sxs)
  let dye : ℤ := dys + (sye - sys)
  if sxe ≤ sxs ∨ sye ≤ sys then canvas
  else
    mapFrom (fun cy row =>
      if dys ≤ (cy : ℤ) ∧ (cy : ℤ) < dye then
        mapFrom (fun cx p =>
          if dxs ≤ (cx : ℤ) ∧ (cx : ℤ) < dxe then
            blendPixel (getPixZ src (sys + ((cy : ℤ) - dys)) (sxs + ((cx : ℤ) - dxs))) p
          else p) 0 row
      else row) 0 canvas

/-- Embedding of `renderer.composite_image`: flip, scale, anchor-relative
placement, then clipped source-over compositing. The `rotation` argument is
accepted and ignored, exactly as in the source. -/
def compositeImage (canvas : Rows) (image : DinoImage) (x y : Frac)
    (flip_h flip_v : Bool) (rotation : Frac) (scale : Frac) : Rows :=
  let src := scaleSrc (flipSrc image.rgba_data flip_h flip_v) scale
  compositeClipped canvas src (dstXOf image x scale) (dstYOf image y scale)

/-! ### Filename parsing (dino_loader.parse_filename, lines 110-140)

Strings are handled as `List Char`. The regular expression `_(\d+)$` of the
source matches precisely when the stem ends in an underscore followed by a
nonempty run of digits; `re.search` then captures the maximal trailing digit
run. Digits are ASCII decimal digits (the repository's naming convention;
`Char.isDigit` matches the behaviour on such filenames). -/

/-- Value of a decimal digit string, the `int(...)` of the captured group. -/
def digitsToNat (ds : List Char) : ℕ :=
  ds.foldl (fun acc c => 10 * acc + (c.toNat - 48)) 0

/-- Strip a trailing `_<digits>` suffix (lines 129-133): if the stem ends in an
underscore followed by one or more digits, return the stem with that suffix
removed together with the parsed frame number, otherwise the stem unchanged
and no frame number. -/
def stripFrameSuffix (stem : List Char) : List Char × Option ℕ :=
  let rev := stem.reverse
  let ds := rev.takeWhile Char.isDigit
  if ds.isEmpty then (stem, none)
  else
    match rev.drop ds.length with
    | '_' :: rest => (rest.reverse, some (digitsToNat ds.reverse))
    | _ => (stem, none)

/-- Split on the first underscore, `stem.split('_', 1)` (lines 136-138): the
part before the first underscore, and the remainder (if an underscore exists)
as the variant. -/
def splitFirstU : List Char → List Char × Option (List Char)
  | [] => ([], none)
  | c :: t =>
    if c = '_' then ([], some t)
    else
      let p := splitFirstU t
      (c :: p.1, p.2)

/-- Embedding of `parse_filename` applied to a stem (the source first strips
the extension with `Path(filename).stem`; `stemOf` below models that step):
frame suffix first, then base/variant split. -/
def parseStem (stem : String) : String × Option String × Option ℕ :=
  let sf := stripFrameSuffix stem.toList
  let bv := splitFirstU sf.1
  (String.mk bv.1, bv.2.map String.mk, sf.2)

/-- Stem of a filename (`pathlib.Path(...).stem`): drop the final `.suffix`
when the last dot is neither the first character nor the last. -/
def stemOf (filename : String) : String :=
  let cs := filename.toList
  let revTail := cs.reverse.takeWhile (fun c => c ≠ '.')
  if revTail.length + 1 < cs.length ∧ revTail.length < cs.length then
    String.mk ((cs.reverse.drop (revTail.length + 1)).reverse)
  else filename

/-- Embedding of `parse_filename` on a full filename. -/
def parseFilename (filename : String) : String × Option String × Option ℕ :=
  parseStem (stemOf filename)

example : parseStem "dino" = ("dino", none, none) := by decide
example : parseFilename "legs_01.png" = ("legs", none, some 1) := by decide
example : parseFilename "legs/nope" = ("legs/nope", none, none) := by decide

/-! ### Association lists standing in for Python dicts

Python dicts preserve insertion order: assigning to an existing key keeps its
position, assigning a fresh key appends at the end, `del` removes the key,
and iteration is in that order. -/

/-- First value bound to `k`, the dict lookup `l[k]` / `k in l`. -/
def alistLookup [DecidableEq κ] : List (κ × α) → κ → Option α
  | [], _ => none
  | e :: t, k => if e.1 = k then some e.2 else alistLookup t k

/-- Dict assignment `l[k] = v`: update in place if `k` is bound, else append. -/
def alistInsert [DecidableEq κ] : List (κ × α) → κ → α → List (κ × α)
  | [], k, v => [(k, v)]
  | e :: t, k, v => if e.1 = k then (k, v) :: t else e :: alistInsert t k v

/-- Dict deletion `del l[k]` (removes every binding of the key; dict keys are
unique, so at most one binding exists in any list built by these operations). -/
def alistErase [DecidableEq κ] : List (κ × α) → κ → List (κ × α)
  | [], _ => []
  | e :: t, k => if e.1 = k then alistErase t k else e :: alistErase t k

/-- Uniqueness of keys, the invariant of every Python dict: no key is bound
twice. -/
def keysNodup [DecidableEq κ] : List (κ × α) → Prop
  | [] => True
  | e :: t => alistLookup t e.1 = none ∧ keysNodup t

/-! ### Dinosaur data (dino_loader.py lines 38-107) -/

/-- Embedding of `DinoPartFrames`: name, variant and the ordered frame list. -/
structure DinoPartFrames where
  name : String
  variant : Option String
  frames : List DinoImage
  deriving DecidableEq

/-- Embedding of `DinoPartFrames.get_frame` (lines 50-54): cyclic lookup by
index modulo the frame count; the `ValueError` raised on an empty sequence is
modelled as `none`. -/
def getFrame (pf : DinoPartFrames) (index : ℕ) : Option DinoImage :=
  if pf.frames.isEmpty then none
  else pf.frames.get? (index % pf.frames.length)

/-- Variant key: `none` is the "no variant" default slot of a part. -/
abbrev VariantKey := Option String

/-- Embedding of `DinoData`: tree name, the part → variant → frames mapping as
insertion-ordered association lists, and the stats dict. The filesystem
`base_path` is not modelled. -/
structure DinoData where
  name : String
  parts : List (String × List (VariantKey × DinoPartFrames))
  stats : List (String × ℤ)
  deriving DecidableEq

/-- A fresh `DinoData` (constructor, lines 64-72). -/
def mkDinoData (name : String) : DinoData :=
  { name := name, parts := [], stats := [("hunger", 50)] }

/-- Embedding of `DinoData.add_part` (lines 74-82): create the part and variant
entries on first use, then append the image to the frame list. The `frame_num`
argument is accepted and ignored, exactly as in the source. -/
def addPart (d : DinoData) (part_name : String) (variant : VariantKey)
    (image : DinoImage) (frame_num : Option ℕ) : DinoData :=
  let pm := (alistLookup d.parts part_name).getD []
  let pf := (alistLookup pm variant).getD ⟨part_name, variant, []⟩
  let pm' := alistInsert pm variant { pf with frames := pf.frames ++ [image] }
  { d with parts := alistInsert d.parts part_name pm' }

/-- Embedding of `DinoData.get_part_frames` (lines 84-101): exact variant
first, then the `None` default, then the first-inserted variant if any exist,
else `None`. -/
def getPartFrames (d : DinoData) (part_name : String) (variant : VariantKey) :
    Option DinoPartFrames :=
  match alistLookup d.parts part_name with
  | none => none
  | some pm =>
    match alistLookup pm variant with
    | some pf => some pf
    | none =>
      match alistLookup pm none with
      | some pf => some pf
      | none => pm.head?.map (·.2)

/-! ### Loading and merging (dino_loader.py lines 143-235)

The filesystem walk is abstracted: a directory is given as the list of its PNG
files' relative paths (each a nonempty list of components, the last being the
filename), already in the sorted traversal order of `sorted(path.rglob)`, and
the external image codec is a function `decode` from relative path to image. -/

/-- Single-file branch of `load_dinosaur` (lines 155-160): the tree is named
after the file's stem and holds one part, literally named `'dino'`, with one
`None`-variant entry containing the single loaded image. -/
def loadDinosaurFile (stem : String) (img : DinoImage) : DinoData :=
  addPart (mkDinoData stem) "dino" none img none

/-- Per-file step of the directory branch of `load_dinosaur` (lines 167-189):
depth-1 files are parsed by filename; deeper files take the first directory as
the part name, parse variant/frame from the filename, and a depth > 2 path
overrides the variant with the first subdirectory name. -/
def loadDirStep (decode : List String → DinoImage) (d : DinoData)
    (rel : List String) : DinoData :=
  match rel with
  | [] => d
  | [fname] =>
    let p := parseFilename fname
    addPart d p.1 p.2.1 (decode rel) p.2.2
  | part :: rest =>
    let p := parseFilename (rest.getLastD "")
    let variant := if rel.length > 2 then some (rest.headD "") else p.2.1
    addPart d part variant (decode rel) p.2.2

/-- Directory branch of `load_dinosaur` (lines 162-191). -/
def loadDinosaurDir (dirName : String) (files : List (List String))
    (decode : List String → DinoImage) : DinoData :=
  files.foldl (loadDirStep decode) (mkDinoData dirName)

/-- Single-file branch of `add_to_dinosaur` (lines 205-225): with an explicit
target part name the filename is not parsed and variant/frame are `None`;
otherwise they come from `parse_filename`. If the target part already has a
`None`-variant entry, that entry is re-keyed to `'original'`, the `None` slot
is deleted, and a `None` incoming variant is replaced by `'default'`; finally
the image is added. -/
def addToDinosaurFile (d : DinoData) (filename : String) (img : DinoImage)
    (part_name : Option String) : DinoData :=
  let pvf := match part_name with
    | none => parseFilename filename
    | some p => (p, none, none)
  let part := pvf.1
  match alistLookup d.parts part with
  | none => addPart d part pvf.2.1 img pvf.2.2
  | some pm =>
    match alistLookup pm none with
    | none => addPart d part pvf.2.1 img pvf.2.2
    | some existing =>
      let variant := some (pvf.2.1.getD "default")
      let pm' := alistErase (alistInsert pm (some "original") existing) none
      addPart { d with parts := alistInsert d.parts part pm' } part variant img pvf.2.2

/-- Directory branch of `add_to_dinosaur` (lines 227-234): every found file is
parsed by its bare filename (`relative.name`) alone, whatever its depth. -/
def addToDinosaurDir (d : DinoData) (files : List (List String))
    (decode : List String → DinoImage) : DinoData :=
  files.foldl (fun d rel =>
    let p := parseFilename (rel.getLastD "")
    addPart d p.1 p.2.1 (decode rel) p.2.2) d

/-! ### Rendering pipeline (renderer.render_dinosaur, lines 125-162) -/

/-- The fixed back-to-front draw order (line 148). -/
def renderOrder : List String := ["tail", "dino", "legs", "arms", "head"]

/-- Body of the render loop for one part (lines 150-162): resolve the selected
variant with fallback, skip when the part resolves to nothing or to an empty
frame sequence, otherwise composite the cyclically selected frame. -/
def renderPart (d : DinoData) (x y : Frac)
    (current_variants : List (String × String)) (current_frames : List (String × ℕ))
    (flip_h : Bool) (scale : Frac) (canvas : Rows) (part_name : String) : Rows :=
  let variant := alistLookup current_variants part_name
  let frame_idx := (alistLookup current_frames part_name).getD 0
  match getPartFrames d part_name variant with
  | none => canvas
  | some pf =>
    if pf.frames.length = 0 then canvas
    else
      match getFrame pf frame_idx with
      | none => canvas
      | some image => compositeImage canvas image x y flip_h false (ofIntF 0) scale

/-- Embedding of `render_dinosaur`: fold the per-part step over the fixed
render order. -/
def renderDinosaur (canvas : Rows) (d : DinoData) (x y : Frac)
    (current_variants : List (String × String)) (current_frames : List (String × ℕ))
    (flip_h : Bool) (scale : Frac) : Rows :=
  renderOrder.foldl (renderPart d x y current_variants current_frames flip_h scale) canvas

/-! ### Concrete test fixtures used by witnesses and counterexamples -/

/-- A concrete 1×1 image. -/
def testImgA : DinoImage := ⟨[[⟨10, 20, 30, 40⟩]], (ofIntF 0, ofIntF 0)⟩

/-- A second, distinct concrete 1×1 image. -/
def testImgB : DinoImage := ⟨[[⟨50, 60, 70, 80⟩]], (ofIntF 0, ofIntF 0)⟩

/-- A constant decoder standing in for the image codec. -/
def testDecode : List String → DinoImage := fun _ => testImgA

/-! ### Association list lemmas -/

theorem alistLookup_insert_self [DecidableEq κ] (l : List (κ × α)) (k : κ) (v : α) :
    alistLookup (alistInsert l k v) k = some v := by
  induction l with
  | nil => simp [alistInsert, alistLookup]
  | cons e t ih =>
    by_cases h : e.1 = k
    · simp [alistInsert, alistLookup, h]
    · simp [alistInsert, alistLookup, h, ih]

theorem alistLookup_insert_ne [DecidableEq κ] (l : List (κ × α)) (k k' : κ) (v : α)
    (h : k' ≠ k) : alistLookup (alistInsert l k v) k' = alistLookup l k' := by
  induction l with
  | nil => simp [alistInsert, alistLookup, Ne.symm h]
  | cons e t ih =>
    by_cases he : e.1 = k
    · simp [alistInsert, alistLookup, he, Ne.symm h]
    · by_cases he' : e.1 = k'
      · simp [alistInsert, alistLookup, he, he', h]
      · simp [alistInsert, alistLookup, he, he', ih]

theorem alistLookup_erase_self [DecidableEq κ] (l : List (κ × α)) (k : κ) :
    alistLookup (alistErase l k) k = none := by
  induction l with
  | nil => simp [alistErase, alistLookup]
  | cons e t ih =>
    by_cases h : e.1 = k
    · simpa [alistErase, alistLookup, h] using ih
    · simpa [alistErase, alistLookup, h] using ih

theorem alistLookup_erase_ne [DecidableEq κ] (l : List (κ × α)) (k k' : κ)
    (h : k' ≠ k) : alistLookup (alistErase l k) k' = alistLookup l k' := by
  induction l with
  | nil => simp [alistErase, alistLookup]
  | cons e t ih =>
    by_cases he : e.1 = k
    · have he2 : e.1 ≠ k' := by rw [he]; exact Ne.symm h
      simp [alistErase, alistLookup, he, he2, ih, Ne.symm h]
    · by_cases he' : e.1 = k'
      · simp [alistErase, alistLookup, he, he', h]
      · simp [alistErase, alistLookup, he, he', ih]

theorem alistInsert_ne_nil [DecidableEq κ] (l : List (κ × α)) (k : κ) (v : α) :
    alistInsert l k v ≠ [] := by
  cases l with
  | nil => simp [alistInsert]
  | cons e t =>
    by_cases h : e.1 = k <;> simp [alistInsert, h]

theorem keysNodup_insert [DecidableEq κ] (l : List (κ × α)) (k : κ) (v : α)
    (h : keysNodup l) : keysNodup (alistInsert l k v) := by
  induction l with
  | nil => simp [alistInsert, keysNodup, alistLookup]
  | cons e t ih =>
    obtain ⟨h1, h2⟩ := h
    by_cases he : e.1 = k
    · rw [he] at h1
      simpa [alistInsert, keysNodup, he] using ⟨h1, h2⟩
    · have hl : alistLookup (alistInsert t k v) e.1 = none := by
        rw [alistLookup_insert_ne t k e.1 v he]
        exact h1
      simpa [alistInsert, keysNodup, he] using ⟨hl, ih h2⟩

theorem keysNodup_erase [DecidableEq κ] (l : List (κ × α)) (k : κ)
    (h : keysNodup l) : keysNodup (alistErase l k) := by
  induction l with
  | nil => simp [alistErase, keysNodup]
  | cons e t ih =>
    obtain ⟨h1, h2⟩ := h
    by_cases he : e.1 = k
    · simpa [alistErase, he] using ih h2
    · have hl : alistLookup (alistErase t k) e.1 = none := by
        rw [alistLookup_erase_ne t k e.1 he]
        exact h1
      simpa [alistErase, keysNodup, he] using ⟨hl, ih h2⟩

/-- A nonempty list is not `isEmpty`. -/
theorem isEmpty_false_of_ne_nil (l : List α) (h : l ≠ []) : l.isEmpty = false := by
  cases l with
  | nil => exact absurd rfl h
  | cons a t => rfl

/-! ### mapFrom lemmas -/

theorem mapFrom_length (f : ℕ → α → α) (i : ℕ) (l : List α) :
    (mapFrom f i l).length = l.length := by
  induction l generalizing i with
  | nil => rfl
  | cons a t ih => simp [mapFrom, ih]

theorem getD_mapFrom (f : ℕ → α → α) (i j : ℕ) (l : List α) (dflt : α)
    (h : j < l.length) : (mapFrom f i l).getD j dflt = f (i + j) (l.getD j dflt) := by
  induction l generalizing i j with
  | nil => simp at h
  | cons a t ih =>
    cases j with
    | zero => simp [mapFrom]
    | succ j =>
      have hj : j < t.length := by simpa using h
      have := ih (i + 1) j hj
      simpa [mapFrom, Nat.add_assoc, Nat.add_comm 1 j] using this

/-! ### takeWhile helper -/

theorem takeWhile_all_append (p : Char → Bool) (l : List Char) (x : Char) (r : List Char)
    (hl : ∀ c ∈ l, p c = true) (hx : p x = false) :
    (l ++ x :: r).takeWhile p = l := by
  induction l with
  | nil => simp [List.takeWhile, hx]
  | cons c t ih =>
    have hc : p c = true := hl c (by simp)
    have ht : ∀ c ∈ t, p c = true := fun c hc' => hl c (by simp [hc'])
    simp [List.takeWhile, hc, ih ht]

/-! ## Claims -/

/-- C7: for every `FrameSequence` of length `N > 0` and every `k ≥ 0`,
`get_frame(k) = get_frame(k + N)`, both equal to the frame at position
`k mod N`, and the lookup always succeeds — the caller never needs to bound
check. -/
theorem claim_c7_cyclic_lookup (pf : DinoPartFrames) (k N : ℕ)
    (hN : pf.frames.length = N) (hpos : 0 < N) :
    getFrame pf (k + N) = getFrame pf k
    ∧ getFrame pf k = pf.frames.get? (k % N)
    ∧ (getFrame pf k).isSome := by
  have hnil : pf.frames ≠ [] := by
    intro hnil
    rw [hnil] at hN
    simp at hN
    omega
  have hne : pf.frames.isEmpty = false := isEmpty_false_of_ne_nil _ hnil
  have hmod : k % N < N := Nat.mod_lt _ hpos
  refine ⟨?_, ?_, ?_⟩
  · simp [getFrame, hne, hN, Nat.add_mod_right]
  · simp [getFrame, hne, hN]
  · have h1 : getFrame pf k = pf.frames.get? (k % N) := by simp [getFrame, hne, hN]
    rw [h1, List.get?_eq_getElem?, List.getElem?_eq_getElem (by omega)]
    simp

/-- C7 witness: a concrete two-frame sequence at `k = 3`, `N = 2`. -/
theorem claim_c7_witness :
    getFrame ⟨"legs", none, [testImgA, testImgB]⟩ (3 + 2)
        = getFrame ⟨"legs", none, [testImgA, testImgB]⟩ 3
    ∧ getFrame ⟨"legs", none, [testImgA, testImgB]⟩ 3
        = [testImgA, testImgB].get? (3 % 2)
    ∧ (getFrame ⟨"legs", none, [testImgA, testImgB]⟩ 3).isSome :=
  claim_c7_cyclic_lookup ⟨"legs", none, [testImgA, testImgB]⟩ 3 2 rfl (by decide)

/-- C8: the four specified parses hold, and for every stem of the shape
`s ++ "_" ++ digits` (a trailing all-ASCII-digit run preceded by an
underscore) the digit run is consumed as the frame index and never becomes
part of the variant: base and variant come from splitting `s` alone. -/
theorem claim_c8_parse_rules (s ds : List Char) (hne : ds ≠ [])
    (hds : ∀ c ∈ ds, c.isDigit = true) :
    parseStem "dino" = ("dino", none, none)
    ∧ parseStem "legs_01" = ("legs", none, some 1)
    ∧ parseStem "head_happy" = ("head", some "happy", none)
    ∧ parseStem "legs_blue_03" = ("legs", some "blue", some 3)
    ∧ parseStem (String.mk (s ++ '_' :: ds))
        = (String.mk (splitFirstU s).1, ((splitFirstU s).2).map String.mk,
           some (digitsToNat ds)) := by
  refine ⟨by decide, by decide, by decide, by decide, ?_⟩
  have hrev : (s ++ '_' :: ds).reverse = ds.reverse ++ '_' :: s.reverse := by
    simp
  have htw : (ds.reverse ++ '_' :: s.reverse).takeWhile Char.isDigit = ds.reverse := by
    refine takeWhile_all_append _ _ _ _ ?_ (by decide)
    intro c hc
    exact hds c (by simpa using hc)
  have hdrop : (ds.reverse ++ '_' :: s.reverse).drop ds.reverse.length = '_' :: s.reverse :=
    List.drop_left _ _
  have hne' : ds.reverse.isEmpty = false :=
    isEmpty_false_of_ne_nil _ (by simpa using hne)
  show parseStem ⟨s ++ '_' :: ds⟩ = _
  unfold parseStem stripFrameSuffix
  simp only [String.toList, hrev, htw, hne', Bool.false_eq_true, if_false, hdrop,
    List.reverse_reverse]

/-- C8 witness: the general digit-suffix rule applied to stem `a_7`. -/
theorem claim_c8_witness :
    parseStem (String.mk (['a'] ++ '_' :: ['7']))
      = (String.mk (splitFirstU ['a']).1, ((splitFirstU ['a']).2).map String.mk,
         some (digitsToNat ['7'])) :=
  (claim_c8_parse_rules ['a'] ['7'] (by decide) (by decide)).2.2.2.2

/-- C3 counterexample: loading the single file `rex.png` produces a tree whose
only part is named the literal `dino`, not the file stem `rex` — the claim
that the part name equals the stem fails at this input. -/
theorem claim_c3_counterexample :
    (loadDinosaurFile "rex" testImgA).parts.map Prod.fst = ["dino"]
    ∧ "dino" ≠ "rex"
    ∧ alistLookup (loadDinosaurFile "rex" testImgA).parts "rex" = none := by
  refine ⟨by decide, by decide, by decide⟩

/-- C3 amended: loading a single file yields a tree whose `name` is the file's
stem, with exactly one part — literally named `dino` — holding a single
"no variant" entry whose frame sequence is exactly the one loaded image. -/
theorem claim_c3_amended (stem : String) (img : DinoImage) :
    loadDinosaurFile stem img =
      { name := stem
        parts := [("dino", [(none, ⟨"dino", none, [img]⟩)])]
        stats := [("hunger", 50)] } := rfl

/-- C4: variant resolution follows the three-tier fallback — the exact
requested variant if present, else the "no variant" default if present, else
the first-inserted variant (the head of the insertion-ordered list), and it
returns `none` exactly when the part is absent (parts always have at least one
entry, per the data-model invariant assumed in the last conjunct). -/
theorem claim_c4_resolution (d : DinoData) (p : String) (v : VariantKey) :
    (alistLookup d.parts p = none → getPartFrames d p v = none)
    ∧ (∀ pm pf, alistLookup d.parts p = some pm → alistLookup pm v = some pf →
        getPartFrames d p v = some pf)
    ∧ (∀ pm pf, alistLookup d.parts p = some pm → alistLookup pm v = none →
        alistLookup pm none = some pf → getPartFrames d p v = some pf)
    ∧ (∀ pm e t, alistLookup d.parts p = some pm → alistLookup pm v = none →
        alistLookup pm none = none → pm = e :: t → getPartFrames d p v = some e.2)
    ∧ (∀ pm, alistLookup d.parts p = some pm → pm ≠ [] →
        (getPartFrames d p v).isSome) := by
  refine ⟨?_, ?_, ?_, ?_, ?_⟩
  · intro h
    simp [getPartFrames, h]
  · intro pm pf h1 h2
    simp [getPartFrames, h1, h2]
  · intro pm pf h1 h2 h3
    simp [getPartFrames, h1, h2, h3]
  · intro pm e t h1 h2 h3 h4
    subst h4
    simp [getPartFrames, h1, h2, h3]
  · intro pm h1 hne
    cases hv : alistLookup pm v with
    | some pf => simp [getPartFrames, h1, hv]
    | none =>
      cases hn : alistLookup pm none with
      | some pf => simp [getPartFrames, h1, hv, hn]
      | none =>
        cases pm with
        | nil => exact absurd rfl hne
        | cons e t => simp [getPartFrames, h1, hv, hn]

/-- C4 witness: on a tree with only a "no variant" entry for part `dino`,
requesting the unknown variant `blue` falls back to that default. -/
theorem claim_c4_witness :
    getPartFrames (loadDinosaurFile "dino" testImgA) "dino" (some "blue")
      = some ⟨"dino", none, [testImgA]⟩ :=
  (claim_c4_resolution (loadDinosaurFile "dino" testImgA) "dino" (some "blue")).2.2.1
    [(none, ⟨"dino", none, [testImgA]⟩)] ⟨"dino", none, [testImgA]⟩
    (by decide) (by decide) (by decide)

/-- C9: rendering folds the per-part step over exactly the back-to-front order
`tail, dino, legs, arms, head`, and a part that resolves to nothing, or whose
resolved sequence has zero frames, leaves the canvas untouched — rendering is
a total function and never fails. -/
theorem claim_c9_render_total (d : DinoData) (x y : Frac)
    (vs : List (String × String)) (fsel : List (String × ℕ)) (fh : Bool)
    (scale : Frac) (canvas : Rows) :
    renderDinosaur canvas d x y vs fsel fh scale
      = List.foldl (renderPart d x y vs fsel fh scale) canvas
          ["tail", "dino", "legs", "arms", "head"]
    ∧ (∀ c p, getPartFrames d p (alistLookup vs p) = none →
        renderPart d x y vs fsel fh scale c p = c)
    ∧ (∀ c p pf, getPartFrames d p (alistLookup vs p) = some pf →
        pf.frames.length = 0 → renderPart d x y vs fsel fh scale c p = c) := by
  refine ⟨rfl, ?_, ?_⟩
  · intro c p h
    simp [renderPart, h]
  · intro c p pf h h0
    simp [renderPart, h, h0]

/-- C9 witness: rendering the part `head` of an empty tree leaves a concrete
canvas unchanged. -/
theorem claim_c9_witness :
    renderPart (mkDinoData "t") (ofIntF 0) (ofIntF 0) [] [] false (ofIntF 1)
        [[⟨1, 2, 3, 4⟩]] "head" = [[⟨1, 2, 3, 4⟩]] :=
  (claim_c9_render_total (mkDinoData "t") (ofIntF 0) (ofIntF 0) [] [] false
    (ofIntF 1) [[⟨1, 2, 3, 4⟩]]).2.1 [[⟨1, 2, 3, 4⟩]] "head" rfl

/-- C10: a directory merge parses every file, at any nesting depth, by its
bare filename only, so the directory components never influence the assigned
part/variant/frame; concretely, merging `legs/blue_01.png` creates part
`blue` (and no part `legs`), whereas full construction on the same layout
creates part `legs` (and no part `blue`). -/
theorem claim_c10_merge_ignores_dirs (d : DinoData)
    (decode : List String → DinoImage) (dirs : List String) (fname : String) :
    addToDinosaurDir d [dirs ++ [fname]] decode
      = addPart d (parseFilename fname).1 (parseFilename fname).2.1
          (decode (dirs ++ [fname])) (parseFilename fname).2.2
    ∧ (alistLookup (addToDinosaurDir (mkDinoData "t")
        [["legs", "blue_01.png"]] testDecode).parts "blue").isSome
    ∧ alistLookup (addToDinosaurDir (mkDinoData "t")
        [["legs", "blue_01.png"]] testDecode).parts "legs" = none
    ∧ (alistLookup (loadDinosaurDir "t"
        [["legs", "blue_01.png"]] testDecode).parts "legs").isSome
    ∧ alistLookup (loadDinosaurDir "t"
        [["legs", "blue_01.png"]] testDecode).parts "blue" = none := by
  refine ⟨?_, by decide, by decide, by decide, by decide⟩
  simp [addToDinosaurDir, List.getLastD_concat]

/-! ### Helper lemmas for the merge claims -/

/-- Effect of `add_part` on the parts mapping when the part's variant map is
known. -/
theorem addPart_parts (d : DinoData) (p : String) (variant : VariantKey)
    (img : DinoImage) (fn : Option ℕ) (pm : List (VariantKey × DinoPartFrames))
    (h : alistLookup d.parts p = some pm) :
    (addPart d p variant img fn).parts
      = alistInsert d.parts p (alistInsert pm variant
          { (alistLookup pm variant).getD ⟨p, variant, []⟩ with
              frames := ((alistLookup pm variant).getD ⟨p, variant, []⟩).frames
                          ++ [img] }) := by
  simp [addPart, h]

/-- Single-file merge with an explicit part name, when the part already has a
"no variant" entry: the source re-keys that entry to `'original'`, deletes the
`None` slot, and adds the incoming image under variant `'default'`. -/
theorem addToDinosaurFile_explicit (d : DinoData) (p : String)
    (pm : List (VariantKey × DinoPartFrames)) (existing : DinoPartFrames)
    (fname : String) (img : DinoImage)
    (h1 : alistLookup d.parts p = some pm)
    (h2 : alistLookup pm none = some existing) :
    addToDinosaurFile d fname img (some p)
      = addPart ({ d with
            parts := alistInsert d.parts p
                       (alistErase (alistInsert pm (some "original") existing) none) })
          p (some "default") img none := by
  simp [addToDinosaurFile, h1, h2]

/-- Resolution of the default succeeds on a part whose variant map is a
nonempty insert with no "no variant" slot. -/
theorem exists_getPartFrames_of_parts (d : DinoData) (p : String)
    (l : List (String × List (VariantKey × DinoPartFrames)))
    (pmE : List (VariantKey × DinoPartFrames)) (k : VariantKey)
    (v : DinoPartFrames)
    (hd : d.parts = alistInsert l p (alistInsert pmE k v))
    (hnn : alistLookup (alistInsert pmE k v) none = none) :
    ∃ pf, getPartFrames d p none = some pf := by
  obtain ⟨e, t, het⟩ := List.exists_cons_of_ne_nil (alistInsert_ne_nil pmE k v)
  refine ⟨e.2, ?_⟩
  have hl : alistLookup d.parts p = some (alistInsert pmE k v) := by
    rw [hd]
    exact alistLookup_insert_self _ _ _
  rw [het] at hl hnn
  simp [getPartFrames, hl, hnn]

/-- C1 counterexample: the tree loaded from single file `dino.png` has a
"no variant" entry for part `dino`; merging `dino_blue.png` with explicit
target part `dino` re-keys it to `'original'` even though the incoming file's
parsed variant is the named string `blue` — the entry is not left in place. -/
theorem claim_c1_counterexample :
    (parseFilename "dino_blue.png").2.1 = some "blue"
    ∧ alistLookup (loadDinosaurFile "dino" testImgA).parts "dino"
        = some [(none, ⟨"dino", none, [testImgA]⟩)]
    ∧ alistLookup (addToDinosaurFile (loadDinosaurFile "dino" testImgA)
        "dino_blue.png" testImgB (some "dino")).parts "dino"
        = some [(some "original", ⟨"dino", none, [testImgA]⟩),
                (some "default", ⟨"dino", some "default", [testImgB]⟩)] := by
  refine ⟨by decide, by decide, by decide⟩

/-- C1 amended: with an explicit target part name the incoming file's name is
never parsed (the merge result does not depend on it) and the incoming image
is always assigned "no variant", re-keyed to `'default'` on collision; hence
whenever the target part already has a "no variant" entry, that entry is
re-keyed to `'original'` regardless of the incoming file's parsed variant, the
`None` slot is freed, and the incoming image lands under variant `'default'`. -/
theorem claim_c1_amended (d : DinoData) (p : String)
    (pm : List (VariantKey × DinoPartFrames)) (existing : DinoPartFrames)
    (fname fname2 : String) (img : DinoImage)
    (h1 : alistLookup d.parts p = some pm)
    (h2 : alistLookup pm none = some existing)
    (h3 : alistLookup pm (some "default") = none) :
    addToDinosaurFile d fname img (some p) = addToDinosaurFile d fname2 img (some p)
    ∧ (alistLookup (addToDinosaurFile d fname img (some p)).parts p).isSome
    ∧ (∀ pm2, alistLookup (addToDinosaurFile d fname img (some p)).parts p = some pm2 →
        alistLookup pm2 none = none
        ∧ alistLookup pm2 (some "original") = some existing
        ∧ alistLookup pm2 (some "default") = some ⟨p, some "default", [img]⟩) := by
  have hexp := addToDinosaurFile_explicit d p pm existing fname img h1 h2
  have hparts := addPart_parts
    ({ d with
        parts := alistInsert d.parts p
                   (alistErase (alistInsert pm (some "original") existing) none) })
    p (some "default") img none
    (alistErase (alistInsert pm (some "original") existing) none)
    (alistLookup_insert_self _ _ _)
  have hdef : alistLookup
      (alistErase (alistInsert pm (some "original") existing) none) (some "default")
      = none := by
    rw [alistLookup_erase_ne _ _ _ (by simp),
        alistLookup_insert_ne _ _ _ _ (by simp), h3]
  refine ⟨rfl, ?_, ?_⟩
  · rw [hexp, hparts, alistLookup_insert_self]
    rfl
  · intro pm2 hpm2
    rw [hexp, hparts, alistLookup_insert_self] at hpm2
    injection hpm2 with hh
    subst hh
    refine ⟨?_, ?_, ?_⟩
    · rw [alistLookup_insert_ne _ _ _ _ (by simp)]
      exact alistLookup_erase_self _ _
    · rw [alistLookup_insert_ne _ _ _ _ (by simp),
          alistLookup_erase_ne _ _ _ (by simp)]
      exact alistLookup_insert_self _ _ _
    · rw [alistLookup_insert_self, hdef]
      simp

/-- C1 witness: the amended statement at the counterexample's concrete input. -/
theorem claim_c1_witness :
    addToDinosaurFile (loadDinosaurFile "dino" testImgA) "dino_blue.png" testImgB
        (some "dino")
      = addToDinosaurFile (loadDinosaurFile "dino" testImgA) "other.png" testImgB
        (some "dino")
    ∧ (alistLookup (addToDinosaurFile (loadDinosaurFile "dino" testImgA)
          "dino_blue.png" testImgB (some "dino")).parts "dino").isSome
    ∧ (∀ pm2, alistLookup (addToDinosaurFile (loadDinosaurFile "dino" testImgA)
          "dino_blue.png" testImgB (some "dino")).parts "dino" = some pm2 →
        alistLookup pm2 none = none
        ∧ alistLookup pm2 (some "original") = some ⟨"dino", none, [testImgA]⟩
        ∧ alistLookup pm2 (some "default")
            = some ⟨"dino", some "default", [testImgB]⟩) :=
  claim_c1_amended (loadDinosaurFile "dino" testImgA) "dino"
    [(none, ⟨"dino", none, [testImgA]⟩)] ⟨"dino", none, [testImgA]⟩
    "dino_blue.png" "other.png" testImgB (by decide) (by decide) (by decide)

/-- C2: after a tree has a part with a "no variant" entry, a single-file merge
targeted at that part leaves the part with no "no variant" entry at all (so no
two entries can both mean "no variant"), with still-unique variant keys, and
resolving the part's default succeeds with one definite entry (resolution is a
pure function of the tree, so repeated calls agree). -/
theorem claim_c2_merge_default_unique (d : DinoData) (p : String)
    (pm : List (VariantKey × DinoPartFrames)) (existing : DinoPartFrames)
    (fname : String) (img : DinoImage)
    (h1 : alistLookup d.parts p = some pm)
    (h2 : alistLookup pm none = some existing)
    (hnd : keysNodup pm) :
    (alistLookup (addToDinosaurFile d fname img (some p)).parts p).isSome
    ∧ (∀ pm2, alistLookup (addToDinosaurFile d fname img (some p)).parts p = some pm2 →
        alistLookup pm2 none = none ∧ keysNodup pm2)
    ∧ ∃ pf, getPartFrames (addToDinosaurFile d fname img (some p)) p none
              = some pf := by
  have hexp := addToDinosaurFile_explicit d p pm existing fname img h1 h2
  have hparts := addPart_parts
    ({ d with
        parts := alistInsert d.parts p
                   (alistErase (alistInsert pm (some "original") existing) none) })
    p (some "default") img none
    (alistErase (alistInsert pm (some "original") existing) none)
    (alistLookup_insert_self _ _ _)
  refine ⟨?_, ?_, ?_⟩
  · rw [hexp, hparts, alistLookup_insert_self]
    rfl
  · intro pm2 hpm2
    rw [hexp, hparts, alistLookup_insert_self] at hpm2
    injection hpm2 with hh
    subst hh
    refine ⟨?_, ?_⟩
    · rw [alistLookup_insert_ne _ _ _ _ (by simp)]
      exact alistLookup_erase_self _ _
    · exact keysNodup_insert _ _ _
        (keysNodup_erase _ _ (keysNodup_insert _ _ _ hnd))
  · rw [hexp]
    exact exists_getPartFrames_of_parts _ p _ _ _ _ hparts
      (by rw [alistLookup_insert_ne _ _ _ _ (by simp)]
          exact alistLookup_erase_self _ _)

/-- C2 witness: the merge-conflict scenario of the spec at a concrete tree. -/
theorem claim_c2_witness :
    (alistLookup (addToDinosaurFile (loadDinosaurFile "dino" testImgA)
        "dino.png" testImgB (some "dino")).parts "dino").isSome
    ∧ (∀ pm2, alistLookup (addToDinosaurFile (loadDinosaurFile "dino" testImgA)
        "dino.png" testImgB (some "dino")).parts "dino" = some pm2 →
        alistLookup pm2 none = none ∧ keysNodup pm2)
    ∧ ∃ pf, getPartFrames (addToDinosaurFile (loadDinosaurFile "dino" testImgA)
              "dino.png" testImgB (some "dino")) "dino" none = some pf :=
  claim_c2_merge_default_unique (loadDinosaurFile "dino" testImgA) "dino"
    [(none, ⟨"dino", none, [testImgA]⟩)] ⟨"dino", none, [testImgA]⟩
    "dino.png" testImgB (by decide) (by decide) ⟨rfl, trivial⟩

/-! ### Clipping and blending claims -/

/-- The clip stage writes nothing when the destination rectangle misses the
canvas: the guard of the early return holds. -/
theorem compositeClipped_no_overlap (canvas src : Rows) (dx dy : ℤ)
    (h : dx + (rowsW src : ℤ) ≤ 0 ∨ (rowsW canvas : ℤ) ≤ dx
       ∨ dy + (rowsH src : ℤ) ≤ 0 ∨ (rowsH canvas : ℤ) ≤ dy
       ∨ rowsW src = 0 ∨ rowsH src = 0) :
    compositeClipped canvas src dx dy = canvas := by
  unfold compositeClipped
  rw [if_pos]
  rcases h with h | h | h | h | h | h
  · left
    omega
  · left
    omega
  · right
    omega
  · right
    omega
  · left
    omega
  · right
    omega

/-- C6: if the flipped, scaled, anchor-placed destination rectangle does not
overlap the canvas bounds, `composite_image` performs no writes: the canvas is
returned exactly unchanged (and, being a total function, no error occurs). -/
theorem claim_c6_no_overlap_no_writes (canvas : Rows) (image : DinoImage)
    (x y : Frac) (fh fv : Bool) (rot scale : Frac)
    (h : dstXOf image x scale
          + (rowsW (scaleSrc (flipSrc image.rgba_data fh fv) scale) : ℤ) ≤ 0
       ∨ (rowsW canvas : ℤ) ≤ dstXOf image x scale
       ∨ dstYOf image y scale
          + (rowsH (scaleSrc (flipSrc image.rgba_data fh fv) scale) : ℤ) ≤ 0
       ∨ (rowsH canvas : ℤ) ≤ dstYOf image y scale
       ∨ rowsW (scaleSrc (flipSrc image.rgba_data fh fv) scale) = 0
       ∨ rowsH (scaleSrc (flipSrc image.rgba_data fh fv) scale) = 0) :
    compositeImage canvas image x y fh fv rot scale = canvas :=
  compositeClipped_no_overlap canvas _ _ _ h

/-- C6 witness: a 1×1 image placed at x = 100 misses a 1×1 canvas; the canvas
comes back exactly unchanged. -/
theorem claim_c6_witness :
    compositeImage [[⟨9, 9, 9, 9⟩]] testImgA (ofIntF 100) (ofIntF 0)
        false false (ofIntF 0) (ofIntF 1) = [[⟨9, 9, 9, 9⟩]] :=
  claim_c6_no_overlap_no_writes [[⟨9, 9, 9, 9⟩]] testImgA (ofIntF 100) (ofIntF 0)
    false false (ofIntF 0) (ofIntF 1) (by right; left; decide)

/-- Byte roundtrip of the RGB blend pipeline at source alpha 0: multiplying by
the float32 value of `1 - 0/255` and rounding leaves every byte fixed after
truncation. Checked exhaustively over all 256 byte values. -/
theorem blend_rgb_byte_fixed : ∀ n : Fin 256,
    toByte (roundF32 (roundF32 (mulF (ofIntF n.val)
      (roundF32 (subF (ofIntF 1) ⟨0, 1⟩))))) = n.val := by decide

/-- Byte roundtrip of the alpha blend pipeline at source alpha 0:
`trunc(f32(f32(f32(n/255) * f32(1-0)) * 255)) = n` for every byte value.
Checked exhaustively over all 256 byte values. -/
theorem blend_alpha_byte_fixed : ∀ n : Fin 256,
    toByte (roundF32 (mulF (roundF32 (roundF32 (mulF
      (roundF32 (divF (ofIntF n.val) (ofIntF 255)))
      (roundF32 (subF (ofIntF 1) ⟨0, 1⟩))))) (ofIntF 255))) = n.val := by decide

theorem blend_rgb_byte_fixed_nat (n : ℕ) (h : n ≤ 255) :
    toByte (roundF32 (roundF32 (mulF (ofIntF n)
      (roundF32 (subF (ofIntF 1) ⟨0, 1⟩))))) = n := by
  simpa using blend_rgb_byte_fixed ⟨n, by omega⟩

theorem blend_alpha_byte_fixed_nat (n : ℕ) (h : n ≤ 255) :
    toByte (roundF32 (mulF (roundF32 (roundF32 (mulF
      (roundF32 (divF (ofIntF n) (ofIntF 255)))
      (roundF32 (subF (ofIntF 1) ⟨0, 1⟩))))) (ofIntF 255))) = n := by
  simpa using blend_alpha_byte_fixed ⟨n, by omega⟩

/-- A fully transparent source pixel leaves the destination pixel's stored
bytes exactly unchanged through the float32 blend. -/
theorem blendPixel_transparent_source (s d : Pixel)
    (hr : d.r ≤ 255) (hg : d.g ≤ 255) (hb : d.b ≤ 255) (ha : d.a ≤ 255)
    (h0 : s.a = 0) : blendPixel s d = d := by
  obtain ⟨sr, sg, sb, sa⟩ := s
  obtain ⟨dr, dg, db, da⟩ := d
  simp only at h0 hr hg hb ha
  subst h0
  have has : roundF32 (divF (ofIntF ((0 : ℕ) : ℤ)) (ofIntF 255)) = ⟨0, 1⟩ := by
    decide
  have hzero : ∀ m : ℕ, roundF32 (mulF (ofIntF (m : ℤ)) (⟨0, 1⟩ : Frac)) = ⟨0, 1⟩ := by
    intro m
    show roundF32 ⟨(m : ℤ) * 0, 1 * 1⟩ = ⟨0, 1⟩
    rw [mul_zero, one_mul]
    decide
  have hadd : ∀ z : Frac, addF ⟨0, 1⟩ z = z := by
    intro z
    show (⟨0 * z.den + z.num * 1, 1 * z.den⟩ : Frac) = z
    rw [zero_mul, mul_one, zero_add, one_mul]
  simp only [blendPixel, has, hzero, hadd, Pixel.mk.injEq]
  refine ⟨?_, ?_, ?_, ?_⟩
  · exact blend_rgb_byte_fixed_nat dr hr
  · exact blend_rgb_byte_fixed_nat dg hg
  · exact blend_rgb_byte_fixed_nat db hb
  · exact blend_alpha_byte_fixed_nat da ha

/-- C5: every pixel written inside the clipped overlap region is exactly the
source-over blend of the incoming source pixel with the destination pixel —
with `a_s = src.a/255`, `a_d = dst.a/255` computed in float32,
`rgb_out = rgb_src*a_s + rgb_dst*(1-a_s)` and `a_out = a_s + a_d*(1-a_s)`
(each intermediate rounded to float32), truncated (not rounded) back to bytes
(`blendPixel` is, definitionally, this formula); in particular a source pixel
with alpha 0 leaves the destination's stored RGBA bytes exactly unchanged. -/
theorem claim_c5_blend_formula (canvas src : Rows) (dx dy : ℤ) (cy cx : ℕ)
    (hcy : cy < rowsH canvas) (hcx : cx < (canvas.getD cy []).length)
    (hy1 : max 0 dy ≤ (cy : ℤ))
    (hy2 : (cy : ℤ) < max 0 dy
      + (min ((rowsH src : ℤ)) ((rowsH canvas : ℤ) - dy) - max 0 (-dy)))
    (hx1 : max 0 dx ≤ (cx : ℤ))
    (hx2 : (cx : ℤ) < max 0 dx
      + (min ((rowsW src : ℤ)) ((rowsW canvas : ℤ) - dx) - max 0 (-dx))) :
    getPixN (compositeClipped canvas src dx dy) cy cx
      = blendPixel (getPixZ src (max 0 (-dy) + ((cy : ℤ) - max 0 dy))
                               (max 0 (-dx) + ((cx : ℤ) - max 0 dx)))
                   (getPixN canvas cy cx)
    ∧ (∀ s d : Pixel, d.r ≤ 255 → d.g ≤ 255 → d.b ≤ 255 → d.a ≤ 255 →
        s.a = 0 → blendPixel s d = d) := by
  constructor
  · have hguard : ¬ (min ((rowsW src : ℤ)) ((rowsW canvas : ℤ) - dx) ≤ max 0 (-dx)
        ∨ min ((rowsH src : ℤ)) ((rowsH canvas : ℤ) - dy) ≤ max 0 (-dy)) := by
      push_neg
      omega
    unfold compositeClipped
    rw [if_neg hguard]
    unfold getPixN
    rw [getD_mapFrom _ 0 cy _ _ hcy]
    rw [Nat.zero_add, if_pos ⟨hy1, hy2⟩]
    rw [getD_mapFrom _ 0 cx _ _ hcx]
    rw [Nat.zero_add, if_pos ⟨hx1, hx2⟩]
  · intro s d hr hg hb ha h0
    exact blendPixel_transparent_source s d hr hg hb ha h0

/-- C5 witness: a concrete 1×1 composite at the origin, with a transparent
source checked through the second conjunct. -/
theorem claim_c5_witness :
    (getPixN (compositeClipped [[⟨1, 2, 3, 4⟩]] [[⟨255, 0, 0, 255⟩]] 0 0) 0 0
      = blendPixel (getPixZ [[⟨255, 0, 0, 255⟩]] (max 0 (-(0:ℤ)) + ((0:ℕ) - max 0 (0:ℤ)))
                           (max 0 (-(0:ℤ)) + ((0:ℕ) - max 0 (0:ℤ))))
                   (getPixN [[⟨1, 2, 3, 4⟩]] 0 0)
    ∧ (∀ s d : Pixel, d.r ≤ 255 → d.g ≤ 255 → d.b ≤ 255 → d.a ≤ 255 →
        s.a = 0 → blendPixel s d = d)) :=
  claim_c5_blend_formula [[⟨1, 2, 3, 4⟩]] [[⟨255, 0, 0, 255⟩]] 0 0 0 0
    (by decide) (by decide) (by decide) (by decide) (by decide) (by decide)

end Pet
